import Mathlib

/-!
Verification development for the OxyMap core (crates/oxy_wasm/src/lib.rs).

The Rust core is embedded shallowly:
* `f64`/`f32` values are modelled as `Rat` (the spec uses only order
  comparisons and defaulting on these fields, never float-specific
  behaviour);
* the rstar `RTree` is modelled by its list of entries in insertion order
  together with the box-intersection query; the tree shape is a balancing
  detail invisible to the store's contract;
* the external flatgeobuf reader is modelled by its result (an
  `Except` of the decoded feature list), and Rust's `str::parse::<f64>`
  by an abstract `parse : String → Option Rat` parameter;
* the csv writer and serde_json are embedded as the explicit string
  builders below.
-/

/-- Event record, struct `ActivistEvent` in the source. -/
structure ActivistEvent where
  id : String
  org : String
  date : Rat
  sentiment : Rat
  momentum : Rat
  geometry : List Rat
deriving DecidableEq, Repr

/-- Axis-aligned rectangle, the `mbr` array `[minx, miny, maxx, maxy]`. -/
structure Rect where
  minx : Rat
  miny : Rat
  maxx : Rat
  maxy : Rat
deriving DecidableEq, Repr

/-- One spatial-index entry, `rstar::primitives::RectangleWithData`. -/
structure RectangleWithData where
  mbr : Rect
  data : ActivistEvent
deriving DecidableEq, Repr

/-- The `RTree` is modelled by its entries in insertion order. -/
abbrev RTreeModel := List RectangleWithData

/-- rstar intersection test between two axis-aligned boxes. -/
def rectIntersects (a b : Rect) : Bool :=
  a.minx ≤ b.maxx && b.minx ≤ a.maxx && a.miny ≤ b.maxy && b.miny ≤ a.maxy

/-- RTree box query: every entry whose bounding box intersects `box`. -/
def query_box (t : RTreeModel) (box : Rect) : List RectangleWithData :=
  t.filter (fun ent => rectIntersects ent.mbr box)

/-- struct `GeoProcessor { events, spatial_index }`. -/
structure GeoProcessor where
  events : List ActivistEvent
  spatial_index : RTreeModel
deriving DecidableEq, Repr

/-- Decoded flatgeobuf geometry: a point, or some non-point geometry. -/
inductive Geom where
  | point (coords : List Rat)
  | nonPoint (kind : String)
deriving DecidableEq, Repr

/-- `feature.geometry.as_point().is_some()`. -/
def Geom.isPoint : Geom → Bool
  | .point _ => true
  | .nonPoint _ => false

/-- Coordinates of a point geometry (empty for non-point geometry). -/
def Geom.coords : Geom → List Rat
  | .point p => p
  | .nonPoint _ => []

/-- One decoded feature: id, string attribute map, geometry. -/
structure Feature where
  id : String
  properties : List (String × String)
  geometry : Geom
deriving DecidableEq, Repr

/-- `feature.properties.get(key)`. -/
def getProp (props : List (String × String)) (key : String) : Option String :=
  (props.find? (fun kv => kv.fst == key)).map (fun kv => kv.snd)

/-- `properties.get(key).unwrap_or(default).parse().unwrap_or(0.0)`:
a numeric attribute that is missing or unparsable defaults to `0`. -/
def coerceNum (parse : String → Option Rat) (props : List (String × String))
    (key : String) : Rat :=
  match getProp props key with
  | none => 0
  | some s => (parse s).getD 0

/-- The body of `load_data`'s `for` loop: build the new `events` vector and
the new `spatial_index` from the decoded features.  Point features produce
one record and one degenerate-box index entry each; non-point features are
skipped. -/
def loadLoop (parse : String → Option Rat) :
    List Feature → List ActivistEvent × RTreeModel
  | [] => ([], [])
  | f :: fs =>
    match f.geometry with
    | Geom.point point =>
      let event : ActivistEvent :=
        { id := f.id
          org := (getProp f.properties "org").getD ""
          date := coerceNum parse f.properties "date"
          sentiment := coerceNum parse f.properties "sentiment"
          momentum := coerceNum parse f.properties "momentum"
          geometry := point }
      let rest := loadLoop parse fs
      (event :: rest.fst,
        { mbr := { minx := point.getD 0 0, miny := point.getD 1 0
                   maxx := point.getD 0 0, maxy := point.getD 1 0 }
          data := event } :: rest.snd)
    | Geom.nonPoint _ => loadLoop parse fs

/-- `GeoProcessor::load_data`.  `parsed` is the result of the external
`flatgeobuf::read` on the input bytes; on a malformed stream the `?`
operator propagates the error before `self` is assigned, and on success
both structures are replaced and a copy of the new processor returned. -/
def load_data (self : GeoProcessor) (parse : String → Option Rat)
    (parsed : Except String (List Feature)) :
    Except String GeoProcessor × GeoProcessor :=
  match parsed with
  | Except.error e => (Except.error e, self)
  | Except.ok features =>
    let built := loadLoop parse features
    let newSelf : GeoProcessor := { events := built.fst, spatial_index := built.snd }
    (Except.ok newSelf, newSelf)

/-- The per-event test in `apply_filters`, exactly the source conjunction:
`event.org == org && date in date_range && sentiment in sentiment_range`. -/
def eventMatches (org : String) (date_range sentiment_range : Rat × Rat)
    (event : ActivistEvent) : Bool :=
  event.org == org && date_range.fst ≤ event.date && event.date ≤ date_range.snd
    && sentiment_range.fst ≤ event.sentiment && event.sentiment ≤ sentiment_range.snd

/-- The filtering loop of `GeoProcessor::apply_filters`: scan `self.events`
in order and push every matching event. -/
def apply_filters (self : GeoProcessor) (org : String)
    (date_range sentiment_range : Rat × Rat) : List ActivistEvent :=
  self.events.foldl
    (fun filtered_events event =>
      if eventMatches org date_range sentiment_range event then
        filtered_events ++ [event]
      else filtered_events) []

/-- `std::mem::size_of::<ActivistEvent>()` on wasm32 (a fixed constant;
its exact value is irrelevant to the contract). -/
def RECORD_BYTES : Nat := 56

/-- `GeoProcessor::memory_footprint`: `events.len() as u32 * size as u32`,
computed in 32-bit arithmetic. -/
def memory_footprint (self : GeoProcessor) : Nat :=
  self.events.length % 2 ^ 32 * (RECORD_BYTES % 2 ^ 32) % 2 ^ 32

/-! ### Number rendering and parsing

The source renders `f64`/`f32` fields with the standard library's float
formatter (an injective shortest-round-trip printer).  Its counterpart on
the rational model of those fields is the injective printer below, with a
verified reader used to state the export round-trip. -/

/-- Decimal digits of `n`, most significant first, prepended to `acc`;
`fuel` bounds the recursion depth and any `fuel > n` is enough. -/
def natDigitsAux : Nat → Nat → List Char → List Char
  | 0, _, acc => acc
  | fuel + 1, n, acc =>
    if n < 10 then Nat.digitChar n :: acc
    else natDigitsAux fuel (n / 10) (Nat.digitChar (n % 10) :: acc)

/-- Decimal digits of `n`, most significant first. -/
def natDigits (n : Nat) : List Char := natDigitsAux (n + 1) n []

/-- Decimal rendering of a natural number. -/
def natRender (n : Nat) : String := ⟨natDigits n⟩

/-- Decimal rendering of an integer. -/
def intRender (i : Int) : String :=
  if i < 0 then "-" ++ natRender i.natAbs else natRender i.natAbs

/-- Model of the external float formatter on the rational model: an
injective `numerator/denominator` rendering. -/
def ratRender (q : Rat) : String := intRender q.num ++ "/" ++ natRender q.den

def isDigitCh (c : Char) : Bool := decide ('0' ≤ c) && decide (c ≤ '9')

/-- Reads a nonempty all-digit character list back as a natural number. -/
def natParse (cs : List Char) : Option Nat :=
  if !cs.isEmpty && cs.all isDigitCh then
    some (cs.foldl (fun a c => a * 10 + (c.toNat - 48)) 0)
  else none

/-- Reads an optional minus sign followed by digits back as an integer. -/
def intParse : List Char → Option Int
  | [] => none
  | c :: rest =>
    if c = '-' then (natParse rest).map (fun n => -(Int.ofNat n))
    else (natParse (c :: rest)).map Int.ofNat

/-- Splits a character list at its first slash. -/
def splitSlash : List Char → List Char × List Char
  | [] => ([], [])
  | c :: cs =>
    if c = '/' then ([], cs)
    else (c :: (splitSlash cs).fst, (splitSlash cs).snd)

/-- Reads the output of `ratRender` back as a rational number. -/
def ratParse (s : String) : Option Rat :=
  let p := splitSlash s.data
  (intParse p.fst).bind fun n => (natParse p.snd).map fun d => mkRat n d

/-! ### The csv writer (`csv::WriterBuilder` defaults) and a standard
delimited-text reader used to state the round-trip. -/

/-- The csv crate quotes a field that contains the delimiter, a quote, or a
record-terminator character. -/
def needsQuotes (cs : List Char) : Bool :=
  cs.any (fun c => c = ',' || c = '"' || c = '\n' || c = '\r')

/-- Doubles every quote inside a quoted field. -/
def escQuotes : List Char → List Char
  | [] => []
  | c :: cs => if c = '"' then '"' :: '"' :: escQuotes cs else c :: escQuotes cs

/-- csv field encoding: quote only when needed, doubling inner quotes. -/
def csvField (cs : List Char) : List Char :=
  if needsQuotes cs then '"' :: (escQuotes cs ++ ['"']) else cs

/-- Encoded fields of one record joined by the delimiter. -/
def sepFields : List (List Char) → List Char
  | [] => []
  | [f] => csvField f
  | f :: g :: fs => csvField f ++ ',' :: sepFields (g :: fs)

/-- One csv record: delimited encoded fields plus the record terminator. -/
def writeRecord (fields : List String) : List Char :=
  sepFields (fields.map String.data) ++ ['\n']

/-- The six columns serialized for one event, in schema order; the
geometry coordinates are joined by a comma inside the last column. -/
def eventFields (event : ActivistEvent) : List String :=
  [event.id, event.org, ratRender event.date, ratRender event.sentiment,
    ratRender event.momentum,
    String.intercalate "," (event.geometry.map ratRender)]

/-- `GeoProcessor::export_csv`: the header record followed by one record
per event, in store order. -/
def export_csv (self : GeoProcessor) : String :=
  ⟨writeRecord ["id", "org", "date", "sentiment", "momentum", "geometry"] ++
    (self.events.map (fun event => writeRecord (eventFields event))).flatten⟩

/-- Reads one field: the remainder of a quoted field after its opening
quote, undoing doubled quotes, and returning the unconsumed rest. -/
def parseQuoted : List Char → Option (List Char × List Char)
  | [] => none
  | c :: cs =>
    if c = '"' then
      match cs with
      | [] => some ([], [])
      | d :: cs2 =>
        if d = '"' then (parseQuoted cs2).map (fun p => ('"' :: p.fst, p.snd))
        else some ([], d :: cs2)
    else (parseQuoted cs).map (fun p => (c :: p.fst, p.snd))

/-- Reads an unquoted field: everything up to a delimiter or terminator. -/
def parseUnquoted : List Char → List Char × List Char
  | [] => ([], [])
  | c :: cs =>
    if c = ',' || c = '\n' then ([], c :: cs)
    else (c :: (parseUnquoted cs).fst, (parseUnquoted cs).snd)

/-- Reads one field, quoted or unquoted. -/
def parseField : List Char → Option (List Char × List Char)
  | [] => some ([], [])
  | c :: cs => if c = '"' then parseQuoted cs else some (parseUnquoted (c :: cs))

/-- Reads one record: delimiter-separated fields up to the terminator. -/
def parseRecord : Nat → List Char → Option (List (List Char) × List Char)
  | 0, _ => none
  | fuel + 1, cs =>
    match parseField cs with
    | none => none
    | some (f, rest) =>
      match rest with
      | [] => some ([f], [])
      | c :: rest2 =>
        if c = ',' then (parseRecord fuel rest2).map (fun p => (f :: p.fst, p.snd))
        else if c = '\n' then some ([f], rest2)
        else none

/-- Reads a sequence of records until the input is exhausted. -/
def parseRecords : Nat → List Char → Option (List (List (List Char)))
  | _, [] => some []
  | 0, _ => none
  | fuel + 1, cs =>
    match parseRecord (cs.length + 1) cs with
    | none => none
    | some (r, rest) => (parseRecords fuel rest).map (fun rs => r :: rs)

/-- A standard delimited-text reader: the list of records, each a list of
decoded fields. -/
def parseCsv (s : String) : Option (List (List String)) :=
  (parseRecords (s.data.length + 1) s.data).map
    (fun rs => rs.map (fun r => r.map (fun f => (⟨f⟩ : String))))

/-! ### The serde_json output of `apply_filters` -/

/-- JSON string escaping for quotes and backslashes. -/
def jsonEscape (s : String) : String :=
  ⟨(s.data.map (fun c => if c = '"' || c = '\\' then ['\\', c] else [c])).flatten⟩

/-- A JSON string literal. -/
def jsonStr (s : String) : String := "\"" ++ jsonEscape s ++ "\""

/-- One event as a serde_json object, fields in declaration order. -/
def eventJson (event : ActivistEvent) : String :=
  "\x7b\"id\":" ++ jsonStr event.id ++ ",\"org\":" ++ jsonStr event.org ++
    ",\"date\":" ++ ratRender event.date ++
    ",\"sentiment\":" ++ ratRender event.sentiment ++
    ",\"momentum\":" ++ ratRender event.momentum ++
    ",\"geometry\":[" ++ String.intercalate "," (event.geometry.map ratRender) ++
    "]\x7d"

/-- The string `apply_filters` hands back to the host:
`serde_json::to_string(&filtered_events)`. -/
def apply_filters_json (self : GeoProcessor) (org : String)
    (date_range sentiment_range : Rat × Rat) : String :=
  "[" ++
    String.intercalate ","
      ((apply_filters self org date_range sentiment_range).map eventJson) ++
    "]"

/-! ## Helper lemmas -/

/-- The push-if-matching loop is an ordered filter. -/
theorem foldl_push_eq_filter (p : ActivistEvent → Bool) (l acc : List ActivistEvent) :
    l.foldl (fun a e => if p e then a ++ [e] else a) acc = acc ++ l.filter p := by
  induction l generalizing acc with
  | nil => simp
  | cons e l ih => by_cases h : p e <;> simp [h, ih]

/-- `apply_filters` filters the store in order by the source conjunction. -/
theorem apply_filters_eq_filter (self : GeoProcessor) (org : String)
    (date_range sentiment_range : Rat × Rat) :
    apply_filters self org date_range sentiment_range =
      self.events.filter (eventMatches org date_range sentiment_range) := by
  simpa using foldl_push_eq_filter (eventMatches org date_range sentiment_range)
    self.events []

/-- The record sequence built by the load loop: the point features, in
order, coerced to event records. -/
theorem loadLoop_fst (parse : String → Option Rat) (fs : List Feature) :
    (loadLoop parse fs).fst =
      (fs.filter (fun f => f.geometry.isPoint)).map (fun f =>
        { id := f.id
          org := (getProp f.properties "org").getD ""
          date := coerceNum parse f.properties "date"
          sentiment := coerceNum parse f.properties "sentiment"
          momentum := coerceNum parse f.properties "momentum"
          geometry := f.geometry.coords }) := by
  induction fs with
  | nil => rfl
  | cons f fs ih =>
    cases hg : f.geometry with
    | point p => simp [loadLoop, hg, Geom.isPoint, Geom.coords, ih]
    | nonPoint k => simp [loadLoop, hg, Geom.isPoint, ih]

/-- The index built by the load loop carries one degenerate-box entry per
built record, in the same order. -/
theorem loadLoop_snd (parse : String → Option Rat) (fs : List Feature) :
    (loadLoop parse fs).snd =
      (loadLoop parse fs).fst.map (fun e =>
        { mbr := { minx := e.geometry.getD 0 0, miny := e.geometry.getD 1 0
                   maxx := e.geometry.getD 0 0, maxy := e.geometry.getD 1 0 }
          data := e }) := by
  induction fs with
  | nil => rfl
  | cons f fs ih =>
    cases hg : f.geometry with
    | point p => simp [loadLoop, hg, ih]
    | nonPoint k => simp [loadLoop, hg, ih]

/-! ## Claims -/

/-- C1 counterexample: the record ⟨"a", org "X", date 1, sentiment 0⟩
satisfies the supplied date range [0, 2] and sentiment range [-1, 1], and
the org predicate is left at its absent/default value (the empty string) —
yet `apply_filters` returns the empty list, so an absent org does not
match any org. -/
theorem apply_filters_empty_org_excludes :
    ((0 : Rat) ≤ (ActivistEvent.mk "a" "X" 1 0 0 [0, 0]).date ∧
      (ActivistEvent.mk "a" "X" 1 0 0 [0, 0]).date ≤ 2 ∧
      (-1 : Rat) ≤ (ActivistEvent.mk "a" "X" 1 0 0 [0, 0]).sentiment ∧
      (ActivistEvent.mk "a" "X" 1 0 0 [0, 0]).sentiment ≤ 1) ∧
    apply_filters ⟨[ActivistEvent.mk "a" "X" 1 0 0 [0, 0]], []⟩ "" (0, 2) (-1, 1)
      = [] := by decide

/-- C1 (amended): `org` is a mandatory argument and is always compared for
equality; a record appears in the result of `apply_filters` iff its org
equals the supplied org, its date lies within the inclusive date range and
its sentiment within the inclusive sentiment range, and the matching
records are returned in store order (the result is the ordered filter of
the store). -/
theorem apply_filters_conjunction_store_order (self : GeoProcessor) (org : String)
    (date_range sentiment_range : Rat × Rat) :
    apply_filters self org date_range sentiment_range =
      self.events.filter (fun event =>
        decide (event.org = org ∧ date_range.fst ≤ event.date ∧
          event.date ≤ date_range.snd ∧ sentiment_range.fst ≤ event.sentiment ∧
          event.sentiment ≤ sentiment_range.snd)) ∧
    ∀ event, event ∈ apply_filters self org date_range sentiment_range ↔
      event ∈ self.events ∧ event.org = org ∧ date_range.fst ≤ event.date ∧
        event.date ≤ date_range.snd ∧ sentiment_range.fst ≤ event.sentiment ∧
        event.sentiment ≤ sentiment_range.snd := by
  have hb : ∀ event, eventMatches org date_range sentiment_range event =
      decide (event.org = org ∧ date_range.fst ≤ event.date ∧
        event.date ≤ date_range.snd ∧ sentiment_range.fst ≤ event.sentiment ∧
        event.sentiment ≤ sentiment_range.snd) := by
    intro event
    by_cases h : event.org = org <;>
      simp [eventMatches, Bool.and_assoc, h, beq_iff_eq]
  constructor
  · rw [apply_filters_eq_filter]
    exact List.filter_congr (fun e _ => hb e)
  · intro event
    rw [apply_filters_eq_filter, List.mem_filter, hb]
    simp

/-- C2: if `load_data` fails, the store's record sequence and spatial
index are exactly what they were before the call. -/
theorem load_data_failure_preserves_state (self : GeoProcessor)
    (parse : String → Option Rat) (parsed : Except String (List Feature))
    (msg : String)
    (hfail : (load_data self parse parsed).fst = Except.error msg) :
    (load_data self parse parsed).snd = self := by
  cases parsed with
  | error e => rfl
  | ok fs => simp [load_data] at hfail

/-- C2 witness: a failed load on a store holding one record leaves that
store intact. -/
theorem load_data_failure_preserves_state_witness :
    (load_data ⟨[ActivistEvent.mk "a" "X" 1 0 0 [0, 0]], []⟩ (fun _ => none)
        (Except.error "malformed")).fst = Except.error "malformed" ∧
    (load_data ⟨[ActivistEvent.mk "a" "X" 1 0 0 [0, 0]], []⟩ (fun _ => none)
        (Except.error "malformed")).snd =
      ⟨[ActivistEvent.mk "a" "X" 1 0 0 [0, 0]], []⟩ :=
  ⟨rfl, load_data_failure_preserves_state _ _ _ "malformed" rfl⟩

/-- C3: `apply_filters` has no bounding-box parameter at all and never
consults the spatial index — its result is the same whatever the index
holds, because it always linear-scans `self.events`. -/
theorem apply_filters_ignores_spatial_index (events : List ActivistEvent)
    (idx1 idx2 : RTreeModel) (org : String)
    (date_range sentiment_range : Rat × Rat) :
    apply_filters ⟨events, idx1⟩ org date_range sentiment_range =
      apply_filters ⟨events, idx2⟩ org date_range sentiment_range := rfl

/-- C4: a load from a decoded feature list always succeeds, and the number
of stored records equals the number of point-geometry features in the
input (non-point features are silently skipped). -/
theorem load_data_point_only_len (self : GeoProcessor)
    (parse : String → Option Rat) (features : List Feature) :
    (load_data self parse (Except.ok features)).fst =
      Except.ok (load_data self parse (Except.ok features)).snd ∧
    (load_data self parse (Except.ok features)).snd.events.length =
      (features.filter (fun f => f.geometry.isPoint)).length := by
  refine ⟨rfl, ?_⟩
  simp [load_data, loadLoop_fst]

/-- C5: after a successful load the spatial index is exactly one entry per
stored record, in order, whose bounding box degenerates to the record's
point location; consequently a box query on exactly a record's point
returns an entry carrying that record. -/
theorem load_data_index_fidelity (self : GeoProcessor)
    (parse : String → Option Rat) (features : List Feature) :
    (load_data self parse (Except.ok features)).snd.spatial_index =
      (load_data self parse (Except.ok features)).snd.events.map (fun e =>
        { mbr := { minx := e.geometry.getD 0 0, miny := e.geometry.getD 1 0
                   maxx := e.geometry.getD 0 0, maxy := e.geometry.getD 1 0 }
          data := e }) ∧
    ∀ e, e ∈ (load_data self parse (Except.ok features)).snd.events →
      ∃ ent, ent ∈ query_box
          (load_data self parse (Except.ok features)).snd.spatial_index
          { minx := e.geometry.getD 0 0, miny := e.geometry.getD 1 0
            maxx := e.geometry.getD 0 0, maxy := e.geometry.getD 1 0 } ∧
        ent.data = e := by
  have hidx : (load_data self parse (Except.ok features)).snd.spatial_index =
      (load_data self parse (Except.ok features)).snd.events.map (fun e =>
        { mbr := { minx := e.geometry.getD 0 0, miny := e.geometry.getD 1 0
                   maxx := e.geometry.getD 0 0, maxy := e.geometry.getD 1 0 }
          data := e }) := by
    simp [load_data, loadLoop_snd]
  refine ⟨hidx, ?_⟩
  intro e he
  refine ⟨{ mbr := { minx := e.geometry.getD 0 0, miny := e.geometry.getD 1 0
                     maxx := e.geometry.getD 0 0, maxy := e.geometry.getD 1 0 }
            data := e }, ?_, rfl⟩
  rw [hidx]
  unfold query_box
  rw [List.mem_filter]
  refine ⟨List.mem_map_of_mem _ he, ?_⟩
  simp [rectIntersects]

/-- C5 witness: loading one point feature at (1, 2) and querying the box
[1, 2, 1, 2] returns the entry carrying that record. -/
theorem load_data_index_fidelity_witness :
    ∃ ent, ent ∈ query_box
        (load_data ⟨[], []⟩ (fun _ => none)
          (Except.ok [Feature.mk "a" [] (Geom.point [1, 2])])).snd.spatial_index
        { minx := 1, miny := 2, maxx := 1, maxy := 2 } ∧
      ent.data = ActivistEvent.mk "a" "" 0 0 0 [1, 2] :=
  (load_data_index_fidelity ⟨[], []⟩ (fun _ => none)
    [Feature.mk "a" [] (Geom.point [1, 2])]).2
    (ActivistEvent.mk "a" "" 0 0 0 [1, 2]) (by decide)

/-- C6: a numeric range with min > max makes the range conjunct
unsatisfiable, so the filter returns the empty list (and, being a total
function, signals no error). -/
theorem apply_filters_empty_range (self : GeoProcessor) (org : String)
    (date_range sentiment_range : Rat × Rat)
    (h : date_range.snd < date_range.fst ∨
      sentiment_range.snd < sentiment_range.fst) :
    apply_filters self org date_range sentiment_range = [] := by
  rw [apply_filters_eq_filter]
  rw [List.filter_eq_nil_iff]
  intro e _
  simp only [eventMatches, Bool.and_eq_true, decide_eq_true_eq]
  rintro ⟨⟨⟨⟨-, h1⟩, h2⟩, h3⟩, h4⟩
  rcases h with h | h <;> linarith

/-- C6 witness: `sentiment_range = (5, 1)` on a one-record store returns
the empty list. -/
theorem apply_filters_empty_range_witness :
    (((5 : Rat), (1 : Rat)).snd < ((5 : Rat), (1 : Rat)).fst) ∧
    apply_filters ⟨[ActivistEvent.mk "a" "X" 1 0 0 [0, 0]], []⟩ "X"
      (0, 3) (5, 1) = [] :=
  ⟨by decide,
    apply_filters_empty_range _ _ _ _ (Or.inr (by decide))⟩

/-- C7: a load from decoded features never fails, and each stored record
is the coercion of its point feature: org defaults to the empty string
when missing, and each numeric attribute parses its string value,
defaulting to 0 when the value is missing or unparsable. -/
theorem load_data_attribute_coercion (self : GeoProcessor)
    (parse : String → Option Rat) (features : List Feature) :
    (load_data self parse (Except.ok features)).fst =
      Except.ok (load_data self parse (Except.ok features)).snd ∧
    (load_data self parse (Except.ok features)).snd.events =
      (features.filter (fun f => f.geometry.isPoint)).map (fun f =>
        { id := f.id
          org := (getProp f.properties "org").getD ""
          date := match getProp f.properties "date" with
            | none => 0
            | some s => (parse s).getD 0
          sentiment := match getProp f.properties "sentiment" with
            | none => 0
            | some s => (parse s).getD 0
          momentum := match getProp f.properties "momentum" with
            | none => 0
            | some s => (parse s).getD 0
          geometry := f.geometry.coords }) := by
  refine ⟨rfl, ?_⟩
  simp only [load_data, loadLoop_fst]
  rfl

/-- C9: the footprint is the record count times the fixed per-record size,
in the source's 32-bit arithmetic, and is 0 on an empty store. -/
theorem memory_footprint_formula (self : GeoProcessor) :
    memory_footprint self = self.events.length * RECORD_BYTES % 2 ^ 32 ∧
    memory_footprint { events := [], spatial_index := self.spatial_index } = 0 := by
  constructor
  · unfold memory_footprint
    exact (Nat.mul_mod _ _ _).symm
  · rfl

/-- C10: `apply_filters` and `export_csv` are pure functions of the record
sequence and the arguments: stores with equal record sequences produce
identical serialized outputs (and, taking the store by value, neither
function touches the store's state). -/
theorem apply_filters_export_deterministic (st1 st2 : GeoProcessor)
    (org : String) (date_range sentiment_range : Rat × Rat)
    (h : st1.events = st2.events) :
    apply_filters_json st1 org date_range sentiment_range =
      apply_filters_json st2 org date_range sentiment_range ∧
    export_csv st1 = export_csv st2 := by
  cases st1
  cases st2
  cases h
  exact ⟨rfl, rfl⟩

/-- C10 witness: two stores with the same single record but different
spatial indexes produce identical filter output and identical export. -/
theorem apply_filters_export_deterministic_witness :
    (GeoProcessor.mk [ActivistEvent.mk "a" "X" 1 0 0 [1, 2]]
        [RectangleWithData.mk (Rect.mk 1 2 1 2) (ActivistEvent.mk "a" "X" 1 0 0 [1, 2])]).events =
      (GeoProcessor.mk [ActivistEvent.mk "a" "X" 1 0 0 [1, 2]] []).events ∧
    (apply_filters_json
        (GeoProcessor.mk [ActivistEvent.mk "a" "X" 1 0 0 [1, 2]]
          [RectangleWithData.mk (Rect.mk 1 2 1 2) (ActivistEvent.mk "a" "X" 1 0 0 [1, 2])])
        "X" (0, 3) (0, 1) =
      apply_filters_json (GeoProcessor.mk [ActivistEvent.mk "a" "X" 1 0 0 [1, 2]] [])
        "X" (0, 3) (0, 1) ∧
    export_csv
        (GeoProcessor.mk [ActivistEvent.mk "a" "X" 1 0 0 [1, 2]]
          [RectangleWithData.mk (Rect.mk 1 2 1 2) (ActivistEvent.mk "a" "X" 1 0 0 [1, 2])]) =
      export_csv (GeoProcessor.mk [ActivistEvent.mk "a" "X" 1 0 0 [1, 2]] [])) :=
  ⟨rfl, apply_filters_export_deterministic _ _ "X" (0, 3) (0, 1) rfl⟩

/-! ## Round-trip lemmas for the delimited-text export -/

/-- A digit character produced by `Nat.digitChar` passes `isDigitCh`. -/
theorem digitChar_isDigit {n : Nat} (h : n < 10) :
    isDigitCh (Nat.digitChar n) = true := by
  interval_cases n <;> decide

/-- Reading a digit character back gives the digit. -/
theorem digitChar_val {n : Nat} (h : n < 10) :
    (Nat.digitChar n).toNat - 48 = n := by
  interval_cases n <;> decide

/-- A digit character is neither a slash nor a minus sign. -/
theorem isDigitCh_ne {c : Char} (h : isDigitCh c = true) :
    c ≠ '/' ∧ c ≠ '-' := by
  constructor <;> rintro rfl <;> revert h <;> decide

/-- The digit accumulator only ever prepends digit characters. -/
theorem natDigitsAux_all (fuel : Nat) :
    ∀ (n : Nat) (acc : List Char), acc.all isDigitCh = true →
      (natDigitsAux fuel n acc).all isDigitCh = true := by
  induction fuel with
  | zero => intro n acc hacc; exact hacc
  | succ fuel ih =>
    intro n acc hacc
    simp only [natDigitsAux]
    split
    · next h => simp [digitChar_isDigit h, hacc]
    · next h => exact ih _ _ (by simp [digitChar_isDigit (Nat.mod_lt n (by omega)), hacc])

/-- Every character of `natDigits n` is a digit. -/
theorem natDigits_all (n : Nat) : (natDigits n).all isDigitCh = true :=
  natDigitsAux_all _ _ _ rfl

/-- The digit accumulator never erases its accumulator. -/
theorem natDigitsAux_ne_nil (fuel : Nat) :
    ∀ (n : Nat) (acc : List Char), acc ≠ [] → natDigitsAux fuel n acc ≠ [] := by
  induction fuel with
  | zero => intro n acc hacc; exact hacc
  | succ fuel ih =>
    intro n acc hacc
    simp only [natDigitsAux]
    split
    · simp
    · exact ih _ _ (by simp)

/-- A rendered natural number is never empty. -/
theorem natDigits_ne_nil (n : Nat) : natDigits n ≠ [] := by
  unfold natDigits
  simp only [natDigitsAux]
  split
  · simp
  · exact natDigitsAux_ne_nil _ _ _ (by simp)

/-- The accumulator splits off the digits already produced. -/
theorem natDigitsAux_acc (fuel : Nat) :
    ∀ (n : Nat) (acc : List Char),
      natDigitsAux fuel n acc = natDigitsAux fuel n [] ++ acc := by
  induction fuel with
  | zero => intro n acc; simp [natDigitsAux]
  | succ fuel ih =>
    intro n acc
    simp only [natDigitsAux]
    split
    · simp
    · rw [ih (n / 10) (Nat.digitChar (n % 10) :: acc),
        ih (n / 10) [Nat.digitChar (n % 10)]]
      simp

/-- Any fuel above the value produces the same digits. -/
theorem natDigitsAux_fuel (n : Nat) :
    ∀ (fuel1 fuel2 : Nat) (acc : List Char), n < fuel1 → n < fuel2 →
      natDigitsAux fuel1 n acc = natDigitsAux fuel2 n acc := by
  induction n using Nat.strong_induction_on with
  | _ n ih =>
    intro fuel1 fuel2 acc h1 h2
    cases fuel1 with
    | zero => omega
    | succ f1 =>
      cases fuel2 with
      | zero => omega
      | succ f2 =>
        simp only [natDigitsAux]
        split
        · rfl
        · next h =>
          exact ih (n / 10) (by omega) f1 f2 _ (by omega) (by omega)

/-- Folding the digit-reading step over the rendered digits of `n`
recovers `n`. -/
theorem natDigits_readback (n : Nat) :
    (natDigits n).foldl (fun a c => a * 10 + (c.toNat - 48)) 0 = n := by
  induction n using Nat.strong_induction_on with
  | _ n ih =>
    unfold natDigits
    simp only [natDigitsAux]
    split
    · next h => simp [digitChar_val h]
    · next h =>
      rw [natDigitsAux_acc, List.foldl_append]
      rw [natDigitsAux_fuel (n / 10) n (n / 10 + 1) [] (by omega) (by omega)]
      have hrec := ih (n / 10) (by omega)
      unfold natDigits at hrec
      rw [hrec]
      simp only [List.foldl]
      rw [digitChar_val (Nat.mod_lt n (by omega))]
      omega

/-- `natParse` inverts `natDigits`. -/
theorem natParse_natDigits (n : Nat) : natParse (natDigits n) = some n := by
  unfold natParse
  rw [if_pos, natDigits_readback]
  simp [natDigits_all, List.isEmpty_iff, natDigits_ne_nil]

/-- `intParse` inverts the integer rendering. -/
theorem intParse_intRender (i : Int) : intParse (intRender i).data = some i := by
  unfold intRender
  split
  · next hneg =>
    have hdata : ("-" ++ natRender i.natAbs).data = '-' :: natDigits i.natAbs := by
      simp [natRender]
    have hstep : intParse ('-' :: natDigits i.natAbs)
        = (natParse (natDigits i.natAbs)).map (fun n => -(Int.ofNat n)) := by
      simp [intParse]
    rw [hdata, hstep, natParse_natDigits]
    have habs : -((i.natAbs : Int)) = i := by omega
    show some (-((i.natAbs : Int))) = some i
    rw [habs]
  · next hpos =>
    rw [show (natRender i.natAbs).data = natDigits i.natAbs from rfl]
    cases hd : natDigits i.natAbs with
    | nil => exact absurd hd (natDigits_ne_nil _)
    | cons c rest =>
      have hc : isDigitCh c = true := by
        have hall := natDigits_all i.natAbs
        rw [hd, List.all_cons, Bool.and_eq_true] at hall
        exact hall.1
      have hcm : c ≠ '-' := (isDigitCh_ne hc).2
      rw [show intParse (c :: rest) = (natParse (c :: rest)).map Int.ofNat from by
        simp [intParse, hcm]]
      rw [← hd, natParse_natDigits]
      have habs : ((i.natAbs : Int)) = i := by omega
      show some ((i.natAbs : Int)) = some i
      rw [habs]

/-- Splitting at the first slash undoes appending around a slash. -/
theorem splitSlash_append (as bs : List Char) (h : ∀ c ∈ as, c ≠ '/') :
    splitSlash (as ++ '/' :: bs) = (as, bs) := by
  induction as with
  | nil => simp [splitSlash]
  | cons a as ih =>
    have ha : a ≠ '/' := h a (by simp)
    simp [splitSlash, ha, ih (fun c hc => h c (by simp [hc]))]

/-- The integer rendering contains no slash. -/
theorem intRender_no_slash (i : Int) : ∀ c ∈ (intRender i).data, c ≠ '/' := by
  intro c hc
  have hdig : ∀ d ∈ natDigits i.natAbs, isDigitCh d = true := by
    have := natDigits_all i.natAbs
    simpa [List.all_eq_true] using this
  unfold intRender at hc
  split at hc
  · have : c ∈ '-' :: natDigits i.natAbs := by
      simpa [natRender] using hc
    rcases this with _ | hmem
    · decide
    · exact (isDigitCh_ne (hdig c (by assumption))).1
  · have : c ∈ natDigits i.natAbs := hc
    exact (isDigitCh_ne (hdig c this)).1

/-- `ratParse` inverts `ratRender`. -/
theorem ratParse_ratRender (q : Rat) : ratParse (ratRender q) = some q := by
  unfold ratParse ratRender
  have hdata : (intRender q.num ++ "/" ++ natRender q.den).data =
      (intRender q.num).data ++ '/' :: natDigits q.den := by
    simp [natRender]
  rw [hdata, splitSlash_append _ _ (intRender_no_slash q.num)]
  show (intParse (intRender q.num).data).bind
      (fun n => Option.map (fun d => mkRat n d) (natParse (natDigits q.den))) = some q
  rw [intParse_intRender, natParse_natDigits]
  simp [Rat.mkRat_self]

/-- Characters of a field that needs no quoting. -/
theorem needsQuotes_eq_false {s : List Char} (h : needsQuotes s = false) :
    ∀ c ∈ s, c ≠ ',' ∧ c ≠ '"' ∧ c ≠ '\n' ∧ c ≠ '\r' := by
  intro c hc
  unfold needsQuotes at h
  rw [List.any_eq_false] at h
  have hcb := h c hc
  simp at hcb
  tauto

/-- Reading an unquoted field stops exactly at the appended separator. -/
theorem parseUnquoted_append (s : List Char) (d : Char) (rest : List Char)
    (hd : d = ',' ∨ d = '\n') (hs : ∀ c ∈ s, c ≠ ',' ∧ c ≠ '\n') :
    parseUnquoted (s ++ d :: rest) = (s, d :: rest) := by
  induction s with
  | nil => rcases hd with rfl | rfl <;> simp [parseUnquoted]
  | cons a s ih =>
    have ha := hs a (by simp)
    simp [parseUnquoted, ha.1, ha.2, ih (fun c hc => hs c (by simp [hc]))]

/-- Reading a quoted field passes a non-quote character through. -/
theorem parseQuoted_cons_ne (a : Char) (cs : List Char) (ha : a ≠ '"') :
    parseQuoted (a :: cs) = (parseQuoted cs).map (fun p => (a :: p.fst, p.snd)) := by
  rw [parseQuoted.eq_def]
  simp [ha]

/-- Reading a quoted field undoes the quote doubling and stops at the
closing quote. -/
theorem parseQuoted_escQuotes (s : List Char) (d : Char) (rest : List Char)
    (hd : d ≠ '"') :
    parseQuoted (escQuotes s ++ '"' :: d :: rest) = some (s, d :: rest) := by
  induction s with
  | nil => simp [escQuotes, parseQuoted, hd]
  | cons a s ih =>
    by_cases ha : a = '"'
    · subst ha
      simp [escQuotes, parseQuoted, ih]
    · rw [show escQuotes (a :: s) = a :: escQuotes s from by simp [escQuotes, ha]]
      rw [List.cons_append, parseQuoted_cons_ne a _ ha, ih]
      rfl

/-- Reading any encoded field followed by a separator recovers the field. -/
theorem parseField_csvField (s : List Char) (d : Char) (rest : List Char)
    (hd : d = ',' ∨ d = '\n') :
    parseField (csvField s ++ d :: rest) = some (s, d :: rest) := by
  have hdq : d ≠ '"' := by rcases hd with rfl | rfl <;> decide
  unfold csvField
  split
  · rw [show ('"' :: (escQuotes s ++ ['"'])) ++ d :: rest
        = '"' :: (escQuotes s ++ '"' :: d :: rest) from by simp]
    rw [show parseField ('"' :: (escQuotes s ++ '"' :: d :: rest))
        = parseQuoted (escQuotes s ++ '"' :: d :: rest) from by simp [parseField]]
    exact parseQuoted_escQuotes s d rest hdq
  · next hq =>
    have hs := needsQuotes_eq_false (by simpa using hq)
    cases s with
    | nil =>
      simp only [List.nil_append]
      rcases hd with rfl | rfl <;> simp [parseField, parseUnquoted]
    | cons a s2 =>
      have ha := hs a (by simp)
      rw [List.cons_append]
      rw [show parseField (a :: (s2 ++ d :: rest))
          = some (parseUnquoted (a :: (s2 ++ d :: rest))) from by
        simp [parseField, ha.2.1]]
      rw [← List.cons_append]
      rw [parseUnquoted_append (a :: s2) d rest hd
        (fun c hc => ⟨(hs c hc).1, (hs c hc).2.2.1⟩)]

/-- One unfolding step of the record reader. -/
theorem parseRecord_succ (fuel : Nat) (cs : List Char) :
    parseRecord (fuel + 1) cs =
      match parseField cs with
      | none => none
      | some (f, rest) =>
        match rest with
        | [] => some ([f], [])
        | c :: rest2 =>
          if c = ',' then (parseRecord fuel rest2).map (fun p => (f :: p.fst, p.snd))
          else if c = '\n' then some ([f], rest2)
          else none := rfl

/-- A record never has more fields than encoded characters plus one. -/
theorem sepFields_length :
    ∀ fields : List (List Char), fields.length ≤ (sepFields fields).length + 1
  | [] => by simp [sepFields]
  | [f] => by simp [sepFields]
  | f :: g :: fs => by
    have ih := sepFields_length (g :: fs)
    rw [show sepFields (f :: g :: fs) = csvField f ++ ',' :: sepFields (g :: fs)
      from rfl]
    simp at ih ⊢
    omega

/-- Reading an encoded record followed by the terminator recovers all its
fields, for any sufficient fuel. -/
theorem parseRecord_sepFields :
    ∀ (fields : List (List Char)) (fuel : Nat) (rest : List Char),
      fields.length ≤ fuel → fields ≠ [] →
      parseRecord fuel (sepFields fields ++ '\n' :: rest) = some (fields, rest)
  | [], _, _, _, hne => absurd rfl hne
  | [f], fuel, rest, hlen, _ => by
    cases fuel with
    | zero => simp at hlen
    | succ fu =>
      rw [show sepFields [f] = csvField f from rfl, parseRecord_succ,
        parseField_csvField f '\n' rest (Or.inr rfl)]
      simp
  | f :: g :: fs, fuel, rest, hlen, _ => by
    cases fuel with
    | zero => simp at hlen
    | succ fu =>
      rw [show sepFields (f :: g :: fs) = csvField f ++ ',' :: sepFields (g :: fs)
        from rfl]
      rw [show (csvField f ++ ',' :: sepFields (g :: fs)) ++ '\n' :: rest
          = csvField f ++ ',' :: (sepFields (g :: fs) ++ '\n' :: rest) from by simp]
      rw [parseRecord_succ, parseField_csvField f ',' _ (Or.inl rfl)]
      have hrec := parseRecord_sepFields (g :: fs) fu rest
        (by simp at hlen ⊢; omega) (by simp)
      simp [hrec]

/-- One unfolding step of the multi-record reader on a nonempty input. -/
theorem parseRecords_ne_nil_eq (fuel : Nat) (cs : List Char) (h : cs ≠ []) :
    parseRecords (fuel + 1) cs =
      match parseRecord (cs.length + 1) cs with
      | none => none
      | some (r, rest) => (parseRecords fuel rest).map (fun rs => r :: rs) := by
  cases cs with
  | nil => exact absurd rfl h
  | cons c cs2 => rfl

/-- The encoded rows are at least as long as their count. -/
theorem flattenRows_length (rows : List (List (List Char))) :
    rows.length ≤ ((rows.map (fun r => sepFields r ++ ['\n'])).flatten).length := by
  induction rows with
  | nil => simp
  | cons r rows ih =>
    simp only [List.map_cons, List.flatten_cons, List.length_append,
      List.length_cons]
    simp at ih ⊢
    omega

/-- Reading a sequence of encoded records recovers every row, for any
sufficient fuel. -/
theorem parseRecords_flatten :
    ∀ (rows : List (List (List Char))) (fuel : Nat),
      rows.length ≤ fuel → (∀ r ∈ rows, r ≠ []) →
      parseRecords fuel ((rows.map (fun r => sepFields r ++ ['\n'])).flatten)
        = some rows
  | [], fuel, _, _ => by cases fuel <;> rfl
  | r :: rows, fuel, hlen, hne => by
    cases fuel with
    | zero => simp at hlen
    | succ fu =>
      have hr : r ≠ [] := hne r (by simp)
      rw [show (((r :: rows).map (fun t => sepFields t ++ ['\n'])).flatten)
          = sepFields r ++ '\n' ::
              ((rows.map (fun t => sepFields t ++ ['\n'])).flatten) from by simp]
      rw [parseRecords_ne_nil_eq fu _ (by simp)]
      rw [parseRecord_sepFields r _ _
        (by
          have hsep := sepFields_length r
          simp at hsep ⊢
          omega) hr]
      have hrec := parseRecords_flatten rows fu
        (by simp at hlen ⊢; omega) (fun t ht => hne t (by simp [ht]))
      simp [hrec]

/-- Remaking strings from their character data is the identity. -/
theorem map_mk_data (fs : List String) :
    (fs.map String.data).map (fun f => (⟨f⟩ : String)) = fs := by
  induction fs with
  | nil => rfl
  | cons a fs ih =>
    simp only [List.map_cons]
    rw [ih]

/-- Remaking rows of strings from their character data is the identity. -/
theorem map_map_mk_data (rows : List (List String)) :
    (rows.map (fun fs => fs.map String.data)).map
      (fun r => r.map (fun f => (⟨f⟩ : String))) = rows := by
  induction rows with
  | nil => rfl
  | cons r rows ih =>
    simp only [List.map_cons]
    rw [map_mk_data r, ih]

/-- C8: for a store of N records, parsing the delimited-text export with
standard quoting rules yields exactly N + 1 records — the header followed
by one row per event with the schema's six columns — recovering each
record's id and org verbatim and its numeric fields through the verified
number reader, so the exported values round-trip. -/
theorem export_csv_roundtrip (self : GeoProcessor) :
    parseCsv (export_csv self) =
      some (["id", "org", "date", "sentiment", "momentum", "geometry"] ::
        self.events.map (fun e =>
          [e.id, e.org, ratRender e.date, ratRender e.sentiment,
            ratRender e.momentum,
            String.intercalate "," (e.geometry.map ratRender)])) ∧
    (parseCsv (export_csv self)).map List.length = some (self.events.length + 1) ∧
    ∀ q : Rat, ratParse (ratRender q) = some q := by
  have hrowsS : (["id", "org", "date", "sentiment", "momentum", "geometry"] ::
      self.events.map (fun e => eventFields e)) =
      (["id", "org", "date", "sentiment", "momentum", "geometry"] ::
        self.events.map (fun e =>
          [e.id, e.org, ratRender e.date, ratRender e.sentiment,
            ratRender e.momentum,
            String.intercalate "," (e.geometry.map ratRender)])) := rfl
  have hdata : (export_csv self).data =
      (((["id", "org", "date", "sentiment", "momentum", "geometry"] ::
          self.events.map (fun e => eventFields e)).map
            (fun fs => fs.map String.data)).map
        (fun r => sepFields r ++ ['\n'])).flatten := by
    show writeRecord ["id", "org", "date", "sentiment", "momentum", "geometry"] ++
        (self.events.map (fun event => writeRecord (eventFields event))).flatten = _
    simp only [writeRecord, List.map_cons, List.map_map, List.flatten_cons]
    rfl
  have hne : ∀ r ∈ (["id", "org", "date", "sentiment", "momentum", "geometry"] ::
      self.events.map (fun e => eventFields e)).map
        (fun fs => fs.map String.data), r ≠ [] := by
    intro r hr
    simp only [List.map_cons, List.mem_cons, List.map_map, List.mem_map] at hr
    rcases hr with rfl | ⟨e, _, rfl⟩
    · simp
    · simp [eventFields, Function.comp]
  have hfuel : ((["id", "org", "date", "sentiment", "momentum", "geometry"] ::
      self.events.map (fun e => eventFields e)).map
        (fun fs => fs.map String.data)).length ≤ (export_csv self).data.length + 1 := by
    have := flattenRows_length
      ((["id", "org", "date", "sentiment", "momentum", "geometry"] ::
        self.events.map (fun e => eventFields e)).map (fun fs => fs.map String.data))
    rw [hdata]
    omega
  have hmain : parseCsv (export_csv self) =
      some (["id", "org", "date", "sentiment", "momentum", "geometry"] ::
        self.events.map (fun e =>
          [e.id, e.org, ratRender e.date, ratRender e.sentiment,
            ratRender e.momentum,
            String.intercalate "," (e.geometry.map ratRender)])) := by
    unfold parseCsv
    rw [hdata]
    rw [show ((((["id", "org", "date", "sentiment", "momentum", "geometry"] ::
        self.events.map (fun e => eventFields e)).map
          (fun fs => fs.map String.data)).map
            (fun r => sepFields r ++ ['\n'])).flatten).length + 1
        = (export_csv self).data.length + 1 from by rw [hdata]]
    rw [parseRecords_flatten _ _ hfuel hne]
    show some (((["id", "org", "date", "sentiment", "momentum", "geometry"] ::
        self.events.map (fun e => eventFields e)).map
          (fun fs => fs.map String.data)).map
        (fun r => r.map (fun f => (⟨f⟩ : String)))) = _
    rw [map_map_mk_data, hrowsS]
  refine ⟨hmain, ?_, ratParse_ratRender⟩
  rw [hmain]
  simp
